import Mathlib

/-!
Verification of the Chatbot repository's ETL pipeline (Documentation notebook).

The notebook ingests a newline-delimited JSON dump of forum comments,
keeps (at most) one best-scoring reply per parent comment in a SQLite table
`parent_reply`, batching writes through a pending transaction buffer, and
finally exports the stored pairs as aligned prompt/reply text files.

Strings are embedded as `List Char`.  The SQLite table is embedded as a
`List Row`; statement execution models SQLite's behaviour on the concrete
statements the notebook builds: an INSERT conflicting with the
`parent_id` PRIMARY KEY or the `comment_id` UNIQUE constraint fails, and the
UPDATE statement built by `sql_insert_replace_comment` always fails because
its `?` parameter markers are never bound (the `.format` call on a template
without braces binds nothing), and `transaction_bldr` swallows per-statement
failures.
-/

namespace Chatbot

/-! ### Characters used by the normalizer (kept escape-free) -/

def lfChar : Char := Char.ofNat 10

def crChar : Char := Char.ofNat 13

def dquote : Char := Char.ofNat 34

def squote : Char := Char.ofNat 39

/-! ### Record normalizer: `format_data`

Python source:
`data = data.replace(chr(10), " newlinechar ").replace(chr(13), " newlinechar ").replace(chr(34)*2, chr(39))`
(the first two patterns are the LF and CR characters, the third is a doubled
double-quote replaced by a single quote).  `replaceChar` is Python
`str.replace` specialised to a one-character pattern; `replaceDQ` is Python
`str.replace` specialised to the two-character pattern `""` with replacement
`squote` - it performs the same left-to-right non-overlapping scan. -/

def newlinechar : List Char := (" newlinechar ").data

def replaceChar (c : Char) (rep : List Char) : List Char → List Char
  | [] => []
  | d :: t => if d = c then rep ++ replaceChar c rep t else d :: replaceChar c rep t

def replaceDQ : List Char → List Char
  | a :: b :: t =>
    if a = dquote ∧ b = dquote then squote :: replaceDQ t
    else a :: replaceDQ (b :: t)
  | l => l

def format_data (data : List Char) : List Char :=
  replaceDQ (replaceChar crChar newlinechar (replaceChar lfChar newlinechar data))

/-! ### Acceptability filter: `acceptable`

Python source splits on the single space character: `len(data.split(' '))`.
`pySplitSpace` reproduces Python `str.split(' ')`: it cuts at every space
character and keeps empty segments (so `pySplitSpace []` is `[[]]`, exactly
as `''.split(' ')` is `['']`). -/

def pySplitSpace : List Char → List (List Char)
  | [] => [[]]
  | c :: t =>
    if c = ' ' then [] :: pySplitSpace t
    else
      match pySplitSpace t with
      | h :: r => (c :: h) :: r
      | [] => [[c]]

def deletedMarker : List Char := ("[deleted]").data

def removedMarker : List Char := ("[removed]").data

def acceptable (data : List Char) : Bool :=
  if 50 < (pySplitSpace data).length ∨ data.length < 1 then false
  else if 1000 < data.length then false
  else if data = deletedMarker then false
  else if data = removedMarker then false
  else true

/-! ### Data model

One row of the `parent_reply` table.  Schema:
`parent_reply(parent_id TEXT PRIMARY KEY, comment_id TEXT UNIQUE, parent TEXT,
comment TEXT, subreddit TEXT, unix INT, score INT)`; the `parent` column is
nullable (left unset by `sql_insert_no_parent`). -/

structure Row where
  parent_id : List Char
  comment_id : List Char
  parent : Option (List Char)
  comment : List Char
  subreddit : List Char
  unix : Int
  score : Int
deriving DecidableEq

/-- A pending write statement.  `insertHasParent` and `insertNoParent` carry
the row their INSERT would create (`insertNoParent` always carries
`parent := none`).  `updateBroken` is the statement built by
`sql_insert_replace_comment`: its SQL text retains unbound `?` markers, so
executing it always raises and is skipped; we record the values the update
was meant to write, but execution ignores them. -/
inductive Stmt where
  | insertHasParent (row : Row)
  | insertNoParent (row : Row)
  | updateBroken (row : Row)
deriving DecidableEq

/-- Parent-reference identifier named by a pending statement. -/
def stmtPid : Stmt → List Char
  | .insertHasParent r => r.parent_id
  | .insertNoParent r => r.parent_id
  | .updateBroken r => r.parent_id

/-- Executing one statement against the committed table, inside
`transaction_bldr`'s per-statement `try ... except: pass`.  An INSERT whose
`parent_id` collides with the PRIMARY KEY or whose `comment_id` collides
with the UNIQUE constraint fails and is skipped; the broken UPDATE always
fails and is skipped. -/
def execStmt (db : List Row) : Stmt → List Row
  | .insertHasParent r =>
    if db.any (fun q => q.parent_id == r.parent_id || q.comment_id == r.comment_id) then db
    else db ++ [r]
  | .insertNoParent r =>
    if db.any (fun q => q.parent_id == r.parent_id || q.comment_id == r.comment_id) then db
    else db ++ [r]
  | .updateBroken _ => db

/-- `for s in sql_transaction: try: c.execute(s) except: pass` - a left fold
of `execStmt` over the buffered statements. -/
def execStmts (db : List Row) : List Stmt → List Row
  | [] => db
  | s :: t => execStmts (execStmt db s) t

/-- Process-wide mutable state of an ingest run: the committed table, the
pending write buffer `sql_transaction`, and the two progress counters. -/
structure IState where
  db : List Row
  buffer : List Stmt
  row_counter : Nat
  paired_rows : Nat
deriving DecidableEq

def initState : IState := { db := [], buffer := [], row_counter := 0, paired_rows := 0 }

/-! ### Store lookups

Both lookups read only the committed table (SELECTs run between flushes),
return the first matching row (`LIMIT 1`), and fail open to "not found". -/

def find_parent (db : List Row) (pid : List Char) : Option (List Char) :=
  (db.find? (fun row => row.comment_id == pid)).map (fun row => row.comment)

def find_existing_score (db : List Row) (pid : List Char) : Option Int :=
  (db.find? (fun row => row.parent_id == pid)).map (fun row => row.score)

/-! ### Transactional store writer: `transaction_bldr` -/

def transaction_bldr (st : IState) (sql : Stmt) : IState :=
  if 1000 < (st.buffer ++ [sql]).length then
    { st with db := execStmts st.db (st.buffer ++ [sql]), buffer := [] }
  else { st with buffer := st.buffer ++ [sql] }

/-! ### The three write helpers -/

def sql_insert_replace_comment (st : IState) (comment_id parent_id : List Char)
    (parent : Option (List Char)) (comment subreddit : List Char)
    (created_utc score : Int) : IState :=
  transaction_bldr st (Stmt.updateBroken
    { parent_id := parent_id, comment_id := comment_id, parent := parent,
      comment := comment, subreddit := subreddit, unix := created_utc, score := score })

def sql_insert_has_parent (st : IState) (comment_id parent_id : List Char)
    (parent : List Char) (comment subreddit : List Char)
    (created_utc score : Int) : IState :=
  transaction_bldr st (Stmt.insertHasParent
    { parent_id := parent_id, comment_id := comment_id, parent := some parent,
      comment := comment, subreddit := subreddit, unix := created_utc, score := score })

def sql_insert_no_parent (st : IState) (comment_id parent_id : List Char)
    (comment subreddit : List Char) (created_utc score : Int) : IState :=
  transaction_bldr st (Stmt.insertNoParent
    { parent_id := parent_id, comment_id := comment_id, parent := none,
      comment := comment, subreddit := subreddit, unix := created_utc, score := score })

/-! ### Ingest driver -/

/-- The six fields the loop reads from one parsed JSON object. -/
structure Rec where
  parent_id : List Char
  body : List Char
  created_utc : Int
  score : Int
  name : List Char
  subreddit : List Char
deriving DecidableEq

/-- One input line's JSON object; a `none` field is a missing key. -/
structure JsonRec where
  parent_id : Option (List Char)
  body : Option (List Char)
  created_utc : Option Int
  score : Option Int
  name : Option (List Char)
  subreddit : Option (List Char)
deriving DecidableEq

/-- Field extraction `row['parent_id']`, ..., `row['subreddit']`: all six keys
are read unconditionally, so any missing key raises `KeyError`. -/
def parseRec (j : JsonRec) : Option Rec :=
  match j.parent_id, j.body, j.created_utc, j.score, j.name, j.subreddit with
  | some p, some b, some u, some s, some n, some sr =>
    some { parent_id := p, body := b, created_utc := u, score := s, name := n, subreddit := sr }
  | _, _, _, _, _, _ => none

/-- The `else` branch of the score comparison: no stored score was found
(or it was Python-falsy), so try to insert.  `if parent_data:` is Python
truthiness: a found-but-empty parent body takes the no-parent branch. -/
def insertBranch (st : IState) (r : Rec) (body : List Char)
    (parent_data : Option (List Char)) : IState :=
  if acceptable body = true then
    match parent_data with
    | some pd =>
      if pd ≠ [] then
        let st2 := sql_insert_has_parent st r.name r.parent_id pd body r.subreddit
          r.created_utc r.score
        { st2 with paired_rows := st2.paired_rows + 1 }
      else
        sql_insert_no_parent st r.name r.parent_id body r.subreddit r.created_utc r.score
    | none =>
      sql_insert_no_parent st r.name r.parent_id body r.subreddit r.created_utc r.score
  else st

/-- Body of the ingest loop for one successfully parsed record (the final
`__main__` version).  `if existing_comment_score:` is Python truthiness on a
value that is either a stored score or `False`: a stored score of `0` is
falsy and falls through to the insert branch. -/
def processRecord (st : IState) (r : Rec) : IState :=
  let body := format_data r.body
  let parent_data := find_parent st.db r.parent_id
  if 2 ≤ r.score then
    match find_existing_score st.db r.parent_id with
    | some existing =>
      if existing ≠ 0 then
        if existing < r.score then
          if acceptable body = true then
            sql_insert_replace_comment st r.name r.parent_id parent_data body r.subreddit
              r.created_utc r.score
          else st
        else st
      else insertBranch st r body parent_data
    | none => insertBranch st r body parent_data
  else st

/-- The ingest driver: streams the records, incrementing `row_counter` per
line before field extraction.  There is no `try`/`except` around the loop
body, so a record with a missing required key raises an uncaught `KeyError`
and the run aborts (second component `true`); after the loop there is no
further statement, in particular no final flush of the pending buffer. -/
def ingestFrom : IState → List JsonRec → IState × Bool
  | st, [] => (st, false)
  | st, j :: rest =>
    let st1 := { st with row_counter := st.row_counter + 1 }
    match parseRec j with
    | none => (st1, true)
    | some r => ingestFrom (processRecord st1 r) rest

/-! ### Corpus exporter

The export cell pulls pages of at most 5000 rows with
`SELECT * FROM parent_reply WHERE unix > {last_unix} AND parent NOT NULL AND
score > 0 ORDER BY unix ASC LIMIT 5000`, takes the page's last row's `unix`
as the next cursor (`df.tail(1)['unix'].values[0]` - which raises on an
empty page, before the length check), writes the page's `parent` column to
the prompt file and its `comment` column to the reply file (first page to
the test split, later pages to the train split), and loops while the page
was full. -/

def rowLE (a b : Row) : Prop := a.unix ≤ b.unix

instance : DecidableRel rowLE := fun a b => inferInstanceAs (Decidable (a.unix ≤ b.unix))

instance : IsTotal Row rowLE := ⟨fun a b => Int.le_total a.unix b.unix⟩

instance : IsTrans Row rowLE := ⟨fun _ _ _ h1 h2 => le_trans h1 h2⟩

/-- The export query's WHERE clause. -/
def qualFilter (cursor : Int) (r : Row) : Bool :=
  decide (cursor < r.unix) && r.parent.isSome && decide (0 < r.score)

/-- The page a query returns: the qualifying rows in ascending `unix` order,
truncated to the page size. -/
def queryPage (db : List Row) (cursor : Int) (limit : Nat) : List Row :=
  (List.insertionSort rowLE (db.filter (qualFilter cursor))).take limit

/-- Appending one line per entry to a text file, `f.write(content + nl)`. -/
def writeLines (file : List (List Char)) (contents : List (List Char)) : List (List Char) :=
  contents.foldl (fun f content => f ++ [content ++ [lfChar]]) file

/-- The lines one page appends to the prompt file and to the reply file, and
the split it is routed to. -/
structure PageOut where
  rows : List Row
  isTest : Bool
  promptLines : List (List Char)
  replyLines : List (List Char)
deriving DecidableEq

def mkPageOut (rows : List Row) (test_done : Bool) : PageOut :=
  { rows := rows
    isTest := !test_done
    promptLines := writeLines [] (rows.map (fun r => r.parent.getD []))
    replyLines := writeLines [] (rows.map (fun r => r.comment)) }

inductive ExpErr where
  | indexError
deriving DecidableEq

/-- The export while-loop.  `fuel` bounds the number of iterations so the
definition is structural; `exportLoop_terminates` below shows the bound
`db.length + 1` is never exhausted.  On an empty page the cursor update
`df.tail(1)['unix'].values[0]` raises (`indexError`) before anything is
written; on a short nonempty page the loop writes the page and exits. -/
def exportLoop (db : List Row) : Nat → Int → Bool → List PageOut →
    Option (Except ExpErr (List PageOut))
  | 0, _, _, _ => none
  | fuel + 1, last_unix, test_done, acc =>
    let pg := queryPage db last_unix 5000
    if hpg : pg = [] then some (Except.error ExpErr.indexError)
    else
      let cursor := (pg.getLast hpg).unix
      let acc2 := acc ++ [mkPageOut pg test_done]
      if pg.length = 5000 then exportLoop db fuel cursor true acc2
      else some (Except.ok acc2)

/-- A full export run over a table, cursor starting at 0, test split not yet
written. -/
def exportRun (db : List Row) : Option (Except ExpErr (List PageOut)) :=
  exportLoop db (db.length + 1) 0 false []

/-! ### Auxiliary definitions used by the statements below -/

/-- Modelled from the spec: "word count (whitespace-split token count)" -
Python `str.split()` with no argument, i.e. the number of maximal runs of
non-whitespace characters.  This definition follows the spec's words, to be
compared with `acceptable`, which the source implements with
`data.split(' ')`. -/
def isPyWhitespace (c : Char) : Bool :=
  c == ' ' || c == Char.ofNat 9 || c == lfChar || c == crChar ||
    c == Char.ofNat 11 || c == Char.ofNat 12

def wsTokenCountAux : List Char → Bool → Nat
  | [], _ => 0
  | c :: t, inTok =>
    if isPyWhitespace c then wsTokenCountAux t false
    else (if inTok then 0 else 1) + wsTokenCountAux t true

/-- Modelled from the spec: whitespace-split token count of a body. -/
def wsTokenCount (l : List Char) : Nat := wsTokenCountAux l false

/-- `n` one-letter words separated by single spaces (`n` words, `2n - 1`
characters for positive `n`). -/
def spacedWords : Nat → List Char
  | 0 => []
  | 1 => ['a']
  | n + 2 => 'a' :: ' ' :: spacedWords (n + 1)

/-- Python `'""'`-free: no two adjacent double-quote characters. -/
def hasDQQ : List Char → Bool
  | a :: b :: t => (a == dquote && b == dquote) || hasDQQ (b :: t)
  | _ => false

/-- The `parent_id` column of a table, whose distinctness is the PRIMARY KEY
invariant. -/
def dbKeys (db : List Row) : List (List Char) := db.map (fun r => r.parent_id)

/-- No trace of parent-reference identifier `p` anywhere in the state:
no stored row for `p` and no pending statement naming `p`. -/
def noP (p : List Char) (st : IState) : Prop :=
  (∀ row ∈ st.db, row.parent_id ≠ p) ∧ (∀ s ∈ st.buffer, stmtPid s ≠ p)

/-- The per-page alignment property: the lines a page appended to the prompt
file and to the reply file are the page's rows' parent bodies and reply
bodies, each with one trailing newline, in page order. -/
def pageProp (p : PageOut) : Prop :=
  p.promptLines = p.rows.map (fun r => r.parent.getD [] ++ [lfChar]) ∧
  p.replyLines = p.rows.map (fun r => r.comment ++ [lfChar])

/-! Concrete inputs used by the per-claim evaluations below. -/

def jC1first : JsonRec :=
  { parent_id := some (("t1_a").data), body := some (("hi").data), created_utc := some 100,
    score := some 3, name := some (("t1_b").data), subreddit := some (("askreddit").data) }

def jC1second : JsonRec :=
  { parent_id := some (("t1_a").data), body := some (("hello").data), created_utc := some 200,
    score := some 5, name := some (("t1_c").data), subreddit := some (("askreddit").data) }

def jC2bad : JsonRec :=
  { parent_id := some (("t1_a").data), body := none, created_utc := some 100,
    score := some 5, name := some (("t1_b").data), subreddit := some (("x").data) }

def jC2good : JsonRec :=
  { parent_id := some (("t1_c").data), body := some (("ok").data), created_utc := some 101,
    score := some 5, name := some (("t1_d").data), subreddit := some (("x").data) }

def jC3rec : JsonRec :=
  { parent_id := some (("t1_p").data), body := some (("hi").data), created_utc := some 100,
    score := some 2, name := some (("t1_q").data), subreddit := some (("x").data) }

def rowC6 : Row :=
  { parent_id := ("t1_k").data, comment_id := ("t1_l").data, parent := none,
    comment := ("c").data, subreddit := ("x").data, unix := 7, score := 4 }

def jC6 : JsonRec :=
  { parent_id := some (("t1_m").data), body := some (("ok").data), created_utc := some 8,
    score := some 3, name := some (("t1_n").data), subreddit := some (("x").data) }

def recC9 : Rec :=
  { parent_id := ("t1_z").data, body := ("hi").data, created_utc := 50, score := 1,
    name := ("t1_y").data, subreddit := ("x").data }

def jC9 : JsonRec :=
  { parent_id := some (("t1_z").data), body := some (("hi").data), created_utc := some 50,
    score := some 1, name := some (("t1_y").data), subreddit := some (("x").data) }

def rowC10 : Row :=
  { parent_id := ("t1_e").data, comment_id := ("t1_f").data, parent := some (("pp").data),
    comment := ("cc").data, subreddit := ("x").data, unix := 5, score := 9 }

def stC10 : IState := { db := [rowC10], buffer := [], row_counter := 0, paired_rows := 0 }

def jC10 : JsonRec :=
  { parent_id := some (("t1_e").data), body := some (("better").data), created_utc := some 60,
    score := some 50, name := some (("t1_g").data), subreddit := some (("x").data) }

def rowC4 : Row :=
  { parent_id := ("t1_u").data, comment_id := ("t1_v").data, parent := some (("p").data),
    comment := ("c").data, subreddit := ("x").data, unix := 10, score := 0 }

def rowC7 : Row :=
  { parent_id := ("t1_u").data, comment_id := ("t1_v").data, parent := some (("p").data),
    comment := ("c").data, subreddit := ("x").data, unix := 10, score := 2 }

/-! ## Lemmas about the record normalizer -/

theorem mem_replaceChar {a c : Char} {rep s : List Char}
    (h : a ∈ replaceChar c rep s) : a ∈ s ∨ a ∈ rep := by
  induction s with
  | nil => simp [replaceChar] at h
  | cons d t ih =>
    by_cases hd : d = c
    · rw [replaceChar, if_pos hd] at h
      rcases List.mem_append.mp h with h1 | h2
      · exact Or.inr h1
      · rcases ih h2 with h3 | h4
        · exact Or.inl (List.mem_cons_of_mem _ h3)
        · exact Or.inr h4
    · rw [replaceChar, if_neg hd] at h
      rcases List.mem_cons.mp h with h1 | h2
      · exact Or.inl (h1 ▸ List.mem_cons_self _ _)
      · rcases ih h2 with h3 | h4
        · exact Or.inl (List.mem_cons_of_mem _ h3)
        · exact Or.inr h4

theorem not_mem_replaceChar_self {c : Char} {rep : List Char} (hrep : c ∉ rep)
    (s : List Char) : c ∉ replaceChar c rep s := by
  induction s with
  | nil => simp [replaceChar]
  | cons d t ih =>
    by_cases hd : d = c
    · rw [replaceChar, if_pos hd]
      intro h
      rcases List.mem_append.mp h with h1 | h2
      · exact hrep h1
      · exact ih h2
    · rw [replaceChar, if_neg hd]
      intro h
      rcases List.mem_cons.mp h with h1 | h2
      · exact hd h1.symm
      · exact ih h2

theorem replaceChar_of_not_mem {c : Char} {rep s : List Char} (h : c ∉ s) :
    replaceChar c rep s = s := by
  induction s with
  | nil => rfl
  | cons d t ih =>
    simp only [List.mem_cons, not_or] at h
    rw [replaceChar, if_neg (fun hd => h.1 hd.symm), ih h.2]

theorem hasDQQ_cons_of_ne {c : Char} (hc : c ≠ dquote) (l : List Char) :
    hasDQQ (c :: l) = hasDQQ l := by
  cases l with
  | nil => rfl
  | cons b u =>
    rw [hasDQQ]
    simp [hc]

theorem replaceDQ_cons_of_ne {b : Char} (hb : b ≠ dquote) (t : List Char) :
    ∃ u, replaceDQ (b :: t) = b :: u := by
  cases t with
  | nil => exact ⟨[], rfl⟩
  | cons x v =>
    rw [replaceDQ, if_neg (fun hx => hb hx.1)]
    exact ⟨_, rfl⟩

theorem mem_replaceDQ : ∀ {a : Char} (s : List Char), a ∈ replaceDQ s → a ∈ s ∨ a = squote
  | _, [], h => Or.inl h
  | _, [_], h => Or.inl h
  | a, b :: c :: t, h => by
    by_cases hbc : b = dquote ∧ c = dquote
    · rw [replaceDQ, if_pos hbc] at h
      rcases List.mem_cons.mp h with h1 | h2
      · exact Or.inr h1
      · rcases mem_replaceDQ t h2 with h3 | h4
        · exact Or.inl (List.mem_cons_of_mem _ (List.mem_cons_of_mem _ h3))
        · exact Or.inr h4
    · rw [replaceDQ, if_neg hbc] at h
      rcases List.mem_cons.mp h with h1 | h2
      · exact Or.inl (h1 ▸ List.mem_cons_self _ _)
      · rcases mem_replaceDQ (c :: t) h2 with h3 | h4
        · exact Or.inl (List.mem_cons_of_mem _ h3)
        · exact Or.inr h4

theorem replaceDQ_of_not_hasDQQ : ∀ {s : List Char}, hasDQQ s = false → replaceDQ s = s
  | [], _ => rfl
  | [_], _ => rfl
  | b :: c :: t, h => by
    rw [hasDQQ] at h
    simp only [Bool.or_eq_false_iff, Bool.and_eq_false_iff, beq_eq_false_iff_ne] at h
    have hbc : ¬(b = dquote ∧ c = dquote) := by
      rintro ⟨h1, h2⟩
      rcases h.1 with h3 | h3 <;> exact h3 (by assumption)
    rw [replaceDQ, if_neg hbc, replaceDQ_of_not_hasDQQ (by
      have := h.2
      simpa using this)]

theorem hasDQQ_replaceDQ : ∀ s : List Char, hasDQQ (replaceDQ s) = false
  | [] => rfl
  | [_] => rfl
  | b :: c :: t => by
    by_cases hbc : b = dquote ∧ c = dquote
    · rw [replaceDQ, if_pos hbc, hasDQQ_cons_of_ne (by decide)]
      exact hasDQQ_replaceDQ t
    · rw [replaceDQ, if_neg hbc]
      by_cases hb : b = dquote
      · have hc : c ≠ dquote := fun hcq => hbc ⟨hb, hcq⟩
        rcases replaceDQ_cons_of_ne hc t with ⟨u, hu⟩
        rw [hu]
        have hrec : hasDQQ (c :: u) = false := hu ▸ hasDQQ_replaceDQ (c :: t)
        rw [hasDQQ]
        simp only [Bool.or_eq_false_iff]
        exact ⟨by simp [hc], hrec⟩
      · rw [hasDQQ_cons_of_ne hb]
        exact hasDQQ_replaceDQ (c :: t)

/-- C8: `format_data` is idempotent: for every string `s`,
`format_data (format_data s)` equals `format_data s`.  The first pass leaves
no LF, no CR (the sentinel contains neither) and no doubled double-quote, so
the second pass changes nothing. -/
theorem c8_format_data_idempotent (s : List Char) :
    format_data (format_data s) = format_data s := by
  set x := format_data s with hx
  have hlf : lfChar ∉ x := by
    intro hmem
    rcases mem_replaceDQ _ hmem with h1 | h1
    · rcases mem_replaceChar h1 with h2 | h2
      · exact not_mem_replaceChar_self (by decide) _ h2
      · exact (by decide : lfChar ∉ newlinechar) h2
    · exact (by decide : ¬lfChar = squote) h1
  have hcr : crChar ∉ x := by
    intro hmem
    rcases mem_replaceDQ _ hmem with h1 | h1
    · exact not_mem_replaceChar_self (by decide : crChar ∉ newlinechar) _ h1
    · exact (by decide : ¬crChar = squote) h1
  have hdq : hasDQQ x = false := hasDQQ_replaceDQ _
  rw [format_data, replaceChar_of_not_mem hlf, replaceChar_of_not_mem hcr,
    replaceDQ_of_not_hasDQQ hdq]

/-! ## Lemmas about the acceptability filter -/

theorem acceptable_eq_true_iff (data : List Char) :
    acceptable data = true ↔
      ((pySplitSpace data).length ≤ 50 ∧ 1 ≤ data.length ∧ data.length ≤ 1000 ∧
        data ≠ deletedMarker ∧ data ≠ removedMarker) := by
  unfold acceptable
  split_ifs with h1 h2 h3 h4
  · simp only [Bool.false_eq_true, false_iff]
    rintro ⟨ha, hb, -⟩
    rcases h1 with h1 | h1 <;> omega
  · simp only [Bool.false_eq_true, false_iff]
    rintro ⟨-, -, hc, -⟩
    omega
  · simp only [Bool.false_eq_true, false_iff]
    rintro ⟨-, -, -, hd, -⟩
    exact hd h3
  · simp only [Bool.false_eq_true, false_iff]
    rintro ⟨-, -, -, -, he⟩
    exact he h4
  · simp only [true_iff]
    push_neg at h1
    exact ⟨by omega, by omega, by omega, h3, h4⟩

theorem pySplitSpace_replicate_a (n : Nat) :
    pySplitSpace (List.replicate n 'a') = [List.replicate n 'a'] := by
  induction n with
  | zero => rfl
  | succ m ih =>
    rw [List.replicate_succ, pySplitSpace, if_neg (by decide), ih]

/-- C5 counterexample: `acceptable` does not agree with the claimed
whitespace-split reading.  The body `'a'` + 51 spaces + `'a'` has 2
whitespace-split tokens, 53 characters, and is not a deleted/removed marker,
so the claim says it is accepted; `acceptable` rejects it because Python
`data.split(' ')` counts the 50 empty segments between consecutive spaces,
giving 52 > 50 segments. -/
theorem c5_counterexample :
    acceptable ('a' :: (List.replicate 51 ' ' ++ ['a'])) = false ∧
    wsTokenCount ('a' :: (List.replicate 51 ' ' ++ ['a'])) ≤ 50 ∧
    1 ≤ ('a' :: (List.replicate 51 ' ' ++ ['a'])).length ∧
    ('a' :: (List.replicate 51 ' ' ++ ['a'])).length ≤ 1000 ∧
    ('a' :: (List.replicate 51 ' ' ++ ['a'])) ≠ deletedMarker ∧
    ('a' :: (List.replicate 51 ' ' ++ ['a'])) ≠ removedMarker := by decide

/-- C5 (amended): `acceptable data` is true iff the number of segments of
Python `data.split(' ')` - splitting at every single space character,
empty segments included - does not exceed 50, the character length is
between 1 and 1000, and `data` is neither the deleted nor the removed
marker; at the boundaries, a 50-word single-space-separated body is
accepted, a 51-word body is rejected, a 1000-character body is accepted, a
1001-character body is rejected, and the empty body is rejected. -/
theorem c5_acceptable_amended :
    (∀ data : List Char, acceptable data = true ↔
      ((pySplitSpace data).length ≤ 50 ∧ 1 ≤ data.length ∧ data.length ≤ 1000 ∧
        data ≠ deletedMarker ∧ data ≠ removedMarker)) ∧
    acceptable (spacedWords 50) = true ∧
    acceptable (spacedWords 51) = false ∧
    acceptable (List.replicate 1000 'a') = true ∧
    acceptable (List.replicate 1001 'a') = false ∧
    acceptable [] = false ∧
    acceptable deletedMarker = false ∧
    acceptable removedMarker = false := by
  refine ⟨acceptable_eq_true_iff, by decide, by decide, ?_, ?_, by decide, by decide, by decide⟩
  · rw [acceptable_eq_true_iff]
    refine ⟨by rw [pySplitSpace_replicate_a, List.length_singleton]; omega,
      by rw [List.length_replicate]; omega, by rw [List.length_replicate], ?_, ?_⟩
    · intro h
      have hlen := congrArg List.length h
      simp only [List.length_replicate] at hlen
      rw [show deletedMarker.length = 9 from rfl] at hlen
      omega
    · intro h
      have hlen := congrArg List.length h
      simp only [List.length_replicate] at hlen
      rw [show removedMarker.length = 9 from rfl] at hlen
      omega
  · have : ¬acceptable (List.replicate 1001 'a') = true := by
      rw [acceptable_eq_true_iff]
      rintro ⟨-, -, h3, -⟩
      simp only [List.length_replicate] at h3
      omega
    exact Bool.eq_false_iff.mpr (fun hcon => this hcon)

/-! ## Lemmas about the ingest driver -/

theorem mem_execStmt {row : Row} {db : List Row} (s : Stmt) (h : row ∈ db) :
    row ∈ execStmt db s := by
  cases s with
  | insertHasParent r =>
    rw [execStmt]
    split
    · exact h
    · exact List.mem_append_left _ h
  | insertNoParent r =>
    rw [execStmt]
    split
    · exact h
    · exact List.mem_append_left _ h
  | updateBroken r => exact h

theorem mem_execStmts {row : Row} {db : List Row} (l : List Stmt) (h : row ∈ db) :
    row ∈ execStmts db l := by
  induction l generalizing db with
  | nil => exact h
  | cons s t ih => exact ih (mem_execStmt s h)

theorem mem_db_transaction_bldr {row : Row} {st : IState} (s : Stmt) (h : row ∈ st.db) :
    row ∈ (transaction_bldr st s).db := by
  rw [transaction_bldr]
  split
  · exact mem_execStmts _ h
  · exact h

theorem mem_db_insertBranch {row : Row} {st : IState} (r : Rec) (body : List Char)
    (pd : Option (List Char)) (h : row ∈ st.db) : row ∈ (insertBranch st r body pd).db := by
  rw [insertBranch.eq_def]
  split
  · cases pd with
    | some p =>
      simp only
      split
      · exact mem_db_transaction_bldr _ h
      · exact mem_db_transaction_bldr _ h
    | none => exact mem_db_transaction_bldr _ h
  · exact h

theorem mem_db_processRecord {row : Row} {st : IState} (r : Rec) (h : row ∈ st.db) :
    row ∈ (processRecord st r).db := by
  rw [processRecord]
  split
  · split
    · split
      · split
        · split
          · exact mem_db_transaction_bldr _ h
          · exact h
        · exact h
      · exact mem_db_insertBranch _ _ _ h
    · exact mem_db_insertBranch _ _ _ h
  · exact h

theorem keys_nodup_execStmt {db : List Row} (s : Stmt) (h : (dbKeys db).Nodup) :
    (dbKeys (execStmt db s)).Nodup := by
  cases s with
  | updateBroken r => exact h
  | insertHasParent r =>
    rw [execStmt]
    split
    · exact h
    · rename_i hany
      have hnotin : r.parent_id ∉ dbKeys db := by
        simp only [List.any_eq_true, Bool.or_eq_true, beq_iff_eq, not_exists] at hany
        simp only [dbKeys, List.mem_map, not_exists]
        rintro q ⟨hq, hqeq⟩
        exact hany q ⟨hq, Or.inl hqeq⟩
      simp only [dbKeys, List.map_append, List.map_cons, List.map_nil]
      exact List.Nodup.append h (List.nodup_singleton _)
        (List.disjoint_singleton.mpr hnotin)
  | insertNoParent r =>
    rw [execStmt]
    split
    · exact h
    · rename_i hany
      have hnotin : r.parent_id ∉ dbKeys db := by
        simp only [List.any_eq_true, Bool.or_eq_true, beq_iff_eq, not_exists] at hany
        simp only [dbKeys, List.mem_map, not_exists]
        rintro q ⟨hq, hqeq⟩
        exact hany q ⟨hq, Or.inl hqeq⟩
      simp only [dbKeys, List.map_append, List.map_cons, List.map_nil]
      exact List.Nodup.append h (List.nodup_singleton _)
        (List.disjoint_singleton.mpr hnotin)

theorem keys_nodup_execStmts {db : List Row} (l : List Stmt) (h : (dbKeys db).Nodup) :
    (dbKeys (execStmts db l)).Nodup := by
  induction l generalizing db with
  | nil => exact h
  | cons s t ih => exact ih (keys_nodup_execStmt s h)

theorem keys_nodup_transaction_bldr {st : IState} (s : Stmt) (h : (dbKeys st.db).Nodup) :
    (dbKeys (transaction_bldr st s).db).Nodup := by
  rw [transaction_bldr]
  split
  · exact keys_nodup_execStmts _ h
  · exact h

theorem keys_nodup_insertBranch {st : IState} (r : Rec) (body : List Char)
    (pd : Option (List Char)) (h : (dbKeys st.db).Nodup) :
    (dbKeys (insertBranch st r body pd).db).Nodup := by
  rw [insertBranch.eq_def]
  split
  · cases pd with
    | some p =>
      simp only
      split
      · exact keys_nodup_transaction_bldr _ h
      · exact keys_nodup_transaction_bldr _ h
    | none => exact keys_nodup_transaction_bldr _ h
  · exact h

theorem keys_nodup_processRecord {st : IState} (r : Rec) (h : (dbKeys st.db).Nodup) :
    (dbKeys (processRecord st r).db).Nodup := by
  rw [processRecord]
  split
  · split
    · split
      · split
        · split
          · exact keys_nodup_transaction_bldr _ h
          · exact h
        · exact h
      · exact keys_nodup_insertBranch _ _ _ h
    · exact keys_nodup_insertBranch _ _ _ h
  · exact h

theorem processRecord_low_score {st : IState} {r : Rec} (h : r.score < 2) :
    processRecord st r = st := by
  rw [processRecord]
  exact if_neg (by omega)

theorem noP_execStmt {p : List Char} {db : List Row} (s : Stmt)
    (hdb : ∀ row ∈ db, row.parent_id ≠ p) (hs : stmtPid s ≠ p) :
    ∀ row ∈ execStmt db s, row.parent_id ≠ p := by
  cases s with
  | updateBroken r => exact hdb
  | insertHasParent r =>
    rw [execStmt]
    split
    · exact hdb
    · intro row hrow
      rcases List.mem_append.mp hrow with h1 | h2
      · exact hdb row h1
      · rw [List.mem_singleton.mp h2]
        exact hs
  | insertNoParent r =>
    rw [execStmt]
    split
    · exact hdb
    · intro row hrow
      rcases List.mem_append.mp hrow with h1 | h2
      · exact hdb row h1
      · rw [List.mem_singleton.mp h2]
        exact hs

theorem noP_execStmts {p : List Char} {db : List Row} (l : List Stmt)
    (hdb : ∀ row ∈ db, row.parent_id ≠ p) (hl : ∀ s ∈ l, stmtPid s ≠ p) :
    ∀ row ∈ execStmts db l, row.parent_id ≠ p := by
  induction l generalizing db with
  | nil => exact hdb
  | cons s t ih =>
    exact ih (noP_execStmt s hdb (hl s (List.mem_cons_self _ _)))
      (fun s2 hs2 => hl s2 (List.mem_cons_of_mem _ hs2))

theorem noP_transaction_bldr {p : List Char} {st : IState} {sql : Stmt}
    (h : noP p st) (hs : stmtPid sql ≠ p) : noP p (transaction_bldr st sql) := by
  rw [transaction_bldr]
  split
  · refine ⟨noP_execStmts _ h.1 ?_, by simp⟩
    intro s2 hs2
    rcases List.mem_append.mp hs2 with h1 | h2
    · exact h.2 s2 h1
    · rw [List.mem_singleton.mp h2]
      exact hs
  · refine ⟨h.1, ?_⟩
    intro s2 hs2
    rcases List.mem_append.mp hs2 with h1 | h2
    · exact h.2 s2 h1
    · rw [List.mem_singleton.mp h2]
      exact hs

theorem noP_insertBranch {p : List Char} {st : IState} {r : Rec} {body : List Char}
    {pd : Option (List Char)} (h : noP p st) (hr : r.parent_id ≠ p) :
    noP p (insertBranch st r body pd) := by
  rw [insertBranch.eq_def]
  split
  · cases pd with
    | some q =>
      simp only
      split
      · exact noP_transaction_bldr h hr
      · exact noP_transaction_bldr h hr
    | none => exact noP_transaction_bldr h hr
  · exact h

theorem noP_processRecord {p : List Char} {st : IState} {r : Rec}
    (h : noP p st) (himp : r.parent_id = p → r.score < 2) : noP p (processRecord st r) := by
  by_cases hp : r.parent_id = p
  · rw [processRecord_low_score (himp hp)]
    exact h
  · rw [processRecord]
    split
    · split
      · split
        · split
          · split
            · exact noP_transaction_bldr h hp
            · exact h
          · exact h
        · exact noP_insertBranch h hp
      · exact noP_insertBranch h hp
    · exact h

/-- C10: once a row is in the committed table, processing any further input
records leaves it there unchanged: executed inserts only ever append and
never touch an existing row, and the replace statement built by
`sql_insert_replace_comment` carries unbound `?` placeholders, always fails
on execution, and is silently skipped by `transaction_bldr`'s per-statement
exception handler, so stored rows are immutable for the rest of the run. -/
theorem c10_rows_immutable (st : IState) (js : List JsonRec) (row : Row)
    (h : row ∈ st.db) : row ∈ (ingestFrom st js).1.db := by
  induction js generalizing st with
  | nil => exact h
  | cons j rest ih =>
    rw [ingestFrom]
    cases hp : parseRec j with
    | none => exact h
    | some r => exact ih _ (mem_db_processRecord r h)

/-- C10 witness: a concrete stored row survives a later higher-scoring reply
to the same parent. -/
theorem c10_rows_immutable_witness :
    rowC10 ∈ stC10.db ∧ rowC10 ∈ (ingestFrom stC10 [jC10]).1.db :=
  ⟨by decide, c10_rows_immutable stC10 [jC10] rowC10 (by decide)⟩

/-- C6: the `parent_id` PRIMARY KEY invariant - at most one stored row per
parent-reference identifier - is preserved by an entire ingest run: inserts
execute only when no row with that `parent_id` exists (otherwise the
conflicting insert fails and is skipped), and the broken replace never
touches the table. -/
theorem c6_unique_parent (st : IState) (js : List JsonRec)
    (h : (dbKeys st.db).Nodup) : (dbKeys (ingestFrom st js).1.db).Nodup := by
  induction js generalizing st with
  | nil => exact h
  | cons j rest ih =>
    rw [ingestFrom]
    cases hp : parseRec j with
    | none => exact h
    | some r => exact ih _ (keys_nodup_processRecord r h)

/-- C6 witness: a concrete run from a one-row table with distinct keys. -/
theorem c6_unique_parent_witness :
    (dbKeys ({ db := [rowC6], buffer := [], row_counter := 0, paired_rows := 0 } :
      IState).db).Nodup ∧
    (dbKeys (ingestFrom
      { db := [rowC6], buffer := [], row_counter := 0, paired_rows := 0 } [jC6]).1.db).Nodup :=
  ⟨by decide, c6_unique_parent _ [jC6] (by decide)⟩

/-- C9: a record whose score is below the threshold 2 leaves the state
entirely unchanged - no write statement is enqueued at all - and a run in
which every reply naming parent `p` has score below 2 ends with no stored
row for `p` and no pending statement for `p`, provided it started that
way. -/
theorem c9_below_threshold :
    (∀ (st : IState) (r : Rec), r.score < 2 → processRecord st r = st) ∧
    (∀ (st : IState) (js : List JsonRec) (p : List Char),
      (∀ row ∈ st.db, row.parent_id ≠ p) →
      (∀ s ∈ st.buffer, stmtPid s ≠ p) →
      (∀ j ∈ js, ∀ r : Rec, parseRec j = some r → r.parent_id = p → r.score < 2) →
      (∀ row ∈ (ingestFrom st js).1.db, row.parent_id ≠ p) ∧
      (∀ s ∈ (ingestFrom st js).1.buffer, stmtPid s ≠ p)) := by
  refine ⟨fun _ _ h => processRecord_low_score h, ?_⟩
  intro st js
  induction js generalizing st with
  | nil => exact fun p hdb hbuf _ => ⟨hdb, hbuf⟩
  | cons j rest ih =>
    intro p hdb hbuf hjs
    rw [ingestFrom]
    cases hp : parseRec j with
    | none => exact ⟨hdb, hbuf⟩
    | some r =>
      have hstep : noP p (processRecord { st with row_counter := st.row_counter + 1 } r) :=
        noP_processRecord ⟨hdb, hbuf⟩ (hjs j (List.mem_cons_self _ _) r hp)
      exact ih _ p hstep.1 hstep.2
        (fun j2 hj2 => hjs j2 (List.mem_cons_of_mem _ hj2))

/-- C9 witness: a concrete score-1 record changes nothing, and a run seeing
only that record leaves no trace of its parent `t1_z`. -/
theorem c9_below_threshold_witness :
    processRecord initState recC9 = initState ∧
    ((∀ row ∈ (ingestFrom initState [jC9]).1.db, row.parent_id ≠ ("t1_z").data) ∧
     (∀ s ∈ (ingestFrom initState [jC9]).1.buffer, stmtPid s ≠ ("t1_z").data)) :=
  ⟨c9_below_threshold.1 initState recC9 (by decide),
   c9_below_threshold.2 initState [jC9] (("t1_z").data) (by decide) (by decide)
     (by
       intro j hj r hr hp
       rw [List.mem_singleton.mp hj] at hr
       have hr2 : some recC9 = some r := hr
       injection hr2 with hr3
       rw [← hr3]
       decide)⟩

/-- C5 witness: the characterisation instantiated at a concrete body. -/
theorem c5_acceptable_amended_witness :
    acceptable (("hi").data) = true ↔
      ((pySplitSpace (("hi").data)).length ≤ 50 ∧ 1 ≤ (("hi").data).length ∧
        (("hi").data).length ≤ 1000 ∧ ("hi").data ≠ deletedMarker ∧
        ("hi").data ≠ removedMarker) :=
  c5_acceptable_amended.1 (("hi").data)

/-- C1 (code bug): the claimed max-score convergence fails on the code.
Ingesting a score-3 reply to parent `t1_a` and then a score-5 reply to the
same parent, then executing the pending buffer (what any later flush
commits), leaves the table holding the score-3 body "hi": the second
record's lookup misses the still-buffered first insert, so its insert is
enqueued too and then rejected by the `parent_id` PRIMARY KEY; even when the
lookup does find a stored score, the replace statement's unbound `?`
placeholders make it always fail and be skipped.  The claim instead demands
the score-5 body "hello". -/
theorem c1_highest_score_fails :
    execStmts (ingestFrom initState [jC1first, jC1second]).1.db
        (ingestFrom initState [jC1first, jC1second]).1.buffer =
      [{ parent_id := ("t1_a").data, comment_id := ("t1_b").data, parent := none,
         comment := ("hi").data, subreddit := ("askreddit").data, unix := 100, score := 3 }] ∧
    execStmts (ingestFrom initState [jC1second, jC1first]).1.db
        (ingestFrom initState [jC1second, jC1first]).1.buffer =
      [{ parent_id := ("t1_a").data, comment_id := ("t1_c").data, parent := none,
         comment := ("hello").data, subreddit := ("askreddit").data, unix := 200, score := 5 }] := by
  decide

/-- C2 counterexample: a record missing the `body` key is fatal.  The run
counts it as read (`row_counter` is 1) and aborts with the uncaught
`KeyError` (flag `true`); the following well-formed record is never
processed, leaving table and buffer empty. -/
theorem c2_counterexample :
    ingestFrom initState [jC2bad, jC2good] =
      ({ db := [], buffer := [], row_counter := 1, paired_rows := 0 }, true) := by
  decide

/-- C2 (amended): for every input line whose JSON object lacks a required
key, the ingest driver counts the record as read and then aborts the run
with an uncaught `KeyError`: the record is not further processed, no
subsequent record is processed, and the rest of the state is untouched. -/
theorem c2_missing_key_aborts (st : IState) (j : JsonRec) (js : List JsonRec)
    (h : parseRec j = none) :
    ingestFrom st (j :: js) = ({ st with row_counter := st.row_counter + 1 }, true) := by
  rw [ingestFrom, h]

/-- C2 witness: the amended behaviour at the concrete missing-body record. -/
theorem c2_missing_key_aborts_witness :
    parseRec jC2bad = none ∧
    ingestFrom initState (jC2bad :: [jC2good]) =
      ({ initState with row_counter := initState.row_counter + 1 }, true) :=
  ⟨rfl, c2_missing_key_aborts initState jC2bad [jC2good] rfl⟩

/-- C3 (code bug): there is no final flush.  After ingesting a single
acceptable score-2 record, the run ends with its INSERT still sitting in the
pending write buffer and the committed table empty - the enqueued statement
was never committed, contradicting the claim that a final forced flush
leaves no enqueued statement uncommitted. -/
theorem c3_no_final_flush :
    (ingestFrom initState [jC3rec]).1.buffer =
      [Stmt.insertNoParent
        { parent_id := ("t1_p").data, comment_id := ("t1_q").data, parent := none,
          comment := ("hi").data, subreddit := ("x").data, unix := 100, score := 2 }] ∧
    (ingestFrom initState [jC3rec]).1.db = [] := by
  decide

/-! ## Lemmas about the corpus exporter -/

theorem sorted_unix_le_getLast {l : List Row} (hs : l.Sorted rowLE) (hne : l ≠ []) :
    ∀ x ∈ l, x.unix ≤ (l.getLast hne).unix := by
  induction l with
  | nil => exact absurd rfl hne
  | cons a t ih =>
    intro x hx
    cases t with
    | nil =>
      rw [List.mem_singleton.mp hx]
      exact le_refl _
    | cons b u =>
      rw [List.getLast_cons (List.cons_ne_nil b u)]
      rcases List.mem_cons.mp hx with h1 | h2
      · rw [h1]
        exact (List.sorted_cons.mp hs).1 _ (List.getLast_mem (List.cons_ne_nil b u))
      · exact ih (List.sorted_cons.mp hs).2 (List.cons_ne_nil b u) x h2

theorem qualFilter_mono {c c2 : Int} (hcc : c ≤ c2) (r : Row)
    (h : qualFilter c2 r = true) : qualFilter c r = true := by
  simp only [qualFilter, Bool.and_eq_true, decide_eq_true_eq] at h ⊢
  exact ⟨⟨lt_of_le_of_lt hcc h.1.1, h.1.2⟩, h.2⟩

theorem filter_qual_of_le {db : List Row} {c c2 : Int} (hcc : c ≤ c2) :
    db.filter (qualFilter c2) = (db.filter (qualFilter c)).filter (qualFilter c2) := by
  rw [List.filter_filter]
  apply List.filter_congr
  intro r _
  cases h : qualFilter c2 r
  · simp
  · simp [qualFilter_mono hcc r h]

theorem queryPage_decrease (db : List Row) (c : Int) (lim : Nat)
    (hne : queryPage db c lim ≠ []) :
    (db.filter (qualFilter ((queryPage db c lim).getLast hne).unix)).length +
        (queryPage db c lim).length ≤
      (db.filter (qualFilter c)).length := by
  have hperm : (List.insertionSort rowLE (db.filter (qualFilter c))).Perm
      (db.filter (qualFilter c)) := List.perm_insertionSort _ _
  have hsorted : (List.insertionSort rowLE (db.filter (qualFilter c))).Sorted rowLE :=
    List.sorted_insertionSort _ _
  have hlast_mem_pg : (queryPage db c lim).getLast hne ∈ queryPage db c lim :=
    List.getLast_mem hne
  have hlast_mem : (queryPage db c lim).getLast hne ∈ db.filter (qualFilter c) :=
    hperm.mem_iff.mp (List.take_subset _ _ hlast_mem_pg)
  have hlast_qual : qualFilter c ((queryPage db c lim).getLast hne) = true :=
    (List.mem_filter.mp hlast_mem).2
  have hc : c < ((queryPage db c lim).getLast hne).unix := by
    simp only [qualFilter, Bool.and_eq_true, decide_eq_true_eq] at hlast_qual
    exact hlast_qual.1.1
  have hpg_sorted : (queryPage db c lim).Sorted rowLE :=
    List.Pairwise.sublist (List.take_sublist _ _) hsorted
  have hpg_le : ∀ x ∈ queryPage db c lim,
      x.unix ≤ ((queryPage db c lim).getLast hne).unix :=
    sorted_unix_le_getLast hpg_sorted hne
  have h4 : (queryPage db c lim).filter
      (qualFilter ((queryPage db c lim).getLast hne).unix) = [] := by
    apply List.filter_eq_nil_iff.mpr
    intro x hx
    simp only [qualFilter, Bool.and_eq_true, decide_eq_true_eq, not_and]
    rintro ⟨hlt, -⟩
    exact absurd (hpg_le x hx) (not_le.mpr hlt)
  have hsplit : queryPage db c lim ++
      (List.insertionSort rowLE (db.filter (qualFilter c))).drop lim =
      List.insertionSort rowLE (db.filter (qualFilter c)) :=
    List.take_append_drop lim _
  calc (db.filter (qualFilter ((queryPage db c lim).getLast hne).unix)).length +
        (queryPage db c lim).length
      = ((db.filter (qualFilter c)).filter
          (qualFilter ((queryPage db c lim).getLast hne).unix)).length +
        (queryPage db c lim).length := by rw [← filter_qual_of_le (le_of_lt hc)]
    _ = ((List.insertionSort rowLE (db.filter (qualFilter c))).filter
          (qualFilter ((queryPage db c lim).getLast hne).unix)).length +
        (queryPage db c lim).length := by
          rw [(hperm.filter _).length_eq]
    _ = ((queryPage db c lim ++
          (List.insertionSort rowLE (db.filter (qualFilter c))).drop lim).filter
          (qualFilter ((queryPage db c lim).getLast hne).unix)).length +
        (queryPage db c lim).length := by
          rw [hsplit]
    _ = (((List.insertionSort rowLE (db.filter (qualFilter c))).drop lim).filter
          (qualFilter ((queryPage db c lim).getLast hne).unix)).length +
        (queryPage db c lim).length := by
          rw [List.filter_append, h4, List.nil_append]
    _ ≤ ((List.insertionSort rowLE (db.filter (qualFilter c))).drop lim).length +
        (queryPage db c lim).length := by
          exact Nat.add_le_add_right (List.length_filter_le _ _) _
    _ = (db.filter (qualFilter c)).length := by
          rw [Nat.add_comm, ← List.length_append, hsplit, hperm.length_eq]

theorem exportLoop_terminates (db : List Row) :
    ∀ (fuel : Nat) (c : Int) (td : Bool) (acc : List PageOut),
      (db.filter (qualFilter c)).length < fuel →
      exportLoop db fuel c td acc ≠ none := by
  intro fuel
  induction fuel with
  | zero => exact fun c td acc h => absurd h (Nat.not_lt_zero _)
  | succ n ih =>
    intro c td acc h
    rw [exportLoop]
    split
    · simp
    · rename_i hpg
      split
      · rename_i hlen
        apply ih
        have hdec := queryPage_decrease db c 5000 hpg
        rw [hlen] at hdec
        omega
      · simp

/-- C4 (amended): the export loop always terminates - the fuel
`db.length + 1` is never exhausted, and the loop stops at the first page
with fewer than 5000 rows - but any iteration whose page query returns zero
rows aborts the export with an error from the empty-page cursor update
`df.tail(1)['unix'].values[0]` instead of completing normally; in
particular, a table with no qualifying rows at all makes the very first
page empty and the run aborts.  (Whether a later page ever comes back empty
depends on the data: the strict `unix > last_unix` cursor can drop rows
tied with a page's last timestamp, so an exact-multiple qualifying count
need not end in an empty page.) -/
theorem c4_pagination (db : List Row) :
    exportRun db ≠ none ∧
    (∀ (fuel : Nat) (c : Int) (td : Bool) (acc : List PageOut),
      queryPage db c 5000 = [] →
      exportLoop db (fuel + 1) c td acc = some (Except.error ExpErr.indexError)) ∧
    (db.filter (qualFilter 0) = [] →
      exportRun db = some (Except.error ExpErr.indexError)) := by
  refine ⟨?_, ?_, ?_⟩
  · exact exportLoop_terminates db _ 0 false []
      (Nat.lt_succ_of_le (List.length_filter_le _ _))
  · intro fuel c td acc hpage
    rw [exportLoop]
    split
    · rfl
    · rename_i hne
      exact absurd hpage hne
  · intro hq
    have hpage : queryPage db 0 5000 = [] := by
      rw [queryPage, hq]
      rfl
    rw [exportRun, exportLoop]
    split
    · rfl
    · rename_i hne
      exact absurd hpage hne

/-- C4 counterexample: the claim says the export completes without raising
when the table contains no qualifying rows; on the empty table the run
instead aborts with the empty-page indexing error. -/
theorem c4_counterexample :
    exportRun ([] : List Row) = some (Except.error ExpErr.indexError) := by
  rfl

/-- C4 witness: a table whose only row has score 0 has no qualifying rows,
so both abort conjuncts of the amended theorem apply - the empty-page
iteration aborts, and so does the whole run. -/
theorem c4_pagination_witness :
    exportLoop [rowC4] (0 + 1) 0 false [] = some (Except.error ExpErr.indexError) ∧
    exportRun [rowC4] = some (Except.error ExpErr.indexError) :=
  ⟨(c4_pagination [rowC4]).2.1 0 0 false [] (by decide),
   (c4_pagination [rowC4]).2.2 (by decide)⟩

theorem writeLines_eq (contents : List (List Char)) :
    ∀ file : List (List Char),
      writeLines file contents = file ++ contents.map (fun c => c ++ [lfChar]) := by
  induction contents with
  | nil => intro file; simp [writeLines]
  | cons c t ih =>
    intro file
    show writeLines (file ++ [c ++ [lfChar]]) t = _
    rw [ih]
    simp

theorem pageProp_mkPageOut (rows : List Row) (td : Bool) :
    pageProp (mkPageOut rows td) := by
  constructor
  · rw [mkPageOut]
    simp only [writeLines_eq, List.nil_append, List.map_map]
    rfl
  · rw [mkPageOut]
    simp only [writeLines_eq, List.nil_append, List.map_map]
    rfl

theorem exportLoop_pages (db : List Row) :
    ∀ (fuel : Nat) (c : Int) (td : Bool) (acc res : List PageOut),
      (∀ p ∈ acc, pageProp p) →
      exportLoop db fuel c td acc = some (Except.ok res) →
      ∀ p ∈ res, pageProp p := by
  intro fuel
  induction fuel with
  | zero =>
    intro c td acc res _ h
    simp [exportLoop] at h
  | succ n ih =>
    intro c td acc res hacc h
    rw [exportLoop] at h
    split at h
    · simp at h
    · split at h
      · refine ih _ _ _ _ ?_ h
        intro p hp
        rcases List.mem_append.mp hp with h1 | h2
        · exact hacc p h1
        · rw [List.mem_singleton.mp h2]
          exact pageProp_mkPageOut _ _
      · have hres : acc ++ [mkPageOut (queryPage db c 5000) td] = res := by
          have h2 := Option.some.inj h
          exact Except.ok.inj h2
        intro p hp
        rw [← hres] at hp
        rcases List.mem_append.mp hp with h1 | h2
        · exact hacc p h1
        · rw [List.mem_singleton.mp h2]
          exact pageProp_mkPageOut _ _

/-- C7: for every page an export run produces, the lines written to the
prompt file and to the reply file during that page are equally many, and the
`i`-th prompt line and the `i`-th reply line both come from the page's
`i`-th row (its parent body and its reply body, each with one trailing
newline) - for the held-out page and the training pages alike. -/
theorem c7_page_alignment (db : List Row) (pages : List PageOut)
    (h : exportRun db = some (Except.ok pages)) :
    ∀ p ∈ pages,
      p.promptLines.length = p.replyLines.length ∧
      ∀ i : Nat,
        p.promptLines[i]? = Option.map (fun r => r.parent.getD [] ++ [lfChar]) p.rows[i]? ∧
        p.replyLines[i]? = Option.map (fun r => r.comment ++ [lfChar]) p.rows[i]? := by
  intro p hp
  have hprop := exportLoop_pages db _ 0 false [] pages (by simp) h p hp
  refine ⟨?_, ?_⟩
  · rw [hprop.1, hprop.2, List.length_map, List.length_map]
  · intro i
    rw [hprop.1, hprop.2, List.getElem?_map, List.getElem?_map]
    exact ⟨rfl, rfl⟩

/-- C7 witness: the alignment instantiated on a concrete one-row table. -/
theorem c7_page_alignment_witness :
    (mkPageOut [rowC7] false).promptLines.length =
      (mkPageOut [rowC7] false).replyLines.length :=
  (c7_page_alignment [rowC7] [mkPageOut [rowC7] false] (by rfl)
    (mkPageOut [rowC7] false) (List.mem_singleton.mpr rfl)).1

end Chatbot
